import Mathlib

/-!
Verification of the DEX transaction-orchestration core.

The definitions below are a shallow embedding of `dex/base.py` (class
`BaseDEX`) and of the slippage flow of `tests/test_aerodrome.py`.  Chain
interactions (RPC reads, sending, waiting for receipts) are passed in as
explicit oracle arguments; an exception raised by a collaborator is an
`Except.error` carrying its readable message.
-/

namespace Dex

/-- RPC block selectors accepted by `get_transaction_count`. -/
inductive Selector where
  | latest
  | pending
deriving DecidableEq

/-- Initialization in `BaseDEX.__init__` (base.py:28): the in-process nonce counter is
initialized with `w3.eth.get_transaction_count(self.address, 'latest')`. -/
def init_next_nonce (get_transaction_count : Selector → Nat) : Nat :=
  get_transaction_count Selector.latest

/-- Model of `Web3.to_wei(n, 'gwei')` for an integral `n`. -/
def to_wei_gwei (n : Nat) : Nat := n * 1000000000

/-- The EIP-1559 fields of the transaction dict built in `approve_token`
(base.py:113-119). -/
structure TxParams where
  fromAddr : String
  nonce : Nat
  txType : Nat
  maxFeePerGas : Nat
  maxPriorityFeePerGas : Nat
deriving DecidableEq

/-- Transaction construction in `approve_token` (base.py:113-119): the approve transaction is built with
hard-coded fees `Web3.to_wei('4', 'gwei')` and `Web3.to_wei('2', 'gwei')`;
no chain state is read to compute them. -/
def build_approve_tx (address : String) (nonce : Nat) : TxParams :=
  { fromAddr := address
    nonce := nonce
    txType := 2
    maxFeePerGas := to_wei_gwei 4
    maxPriorityFeePerGas := to_wei_gwei 2 }

/-- The fee policy as the spec words it (spec §4.2), kept separate from
`build_approve_tx` so the two can be compared:
`maxFeePerGas = 2 × currentBaseFee`,
`maxPriorityFeePerGas = max(minimumPriorityFee, currentBaseFee / 10)`. -/
def spec_fee_quote (currentBaseFee minimumPriorityFee : Nat) : Nat × Nat :=
  (2 * currentBaseFee, max minimumPriorityFee (currentBaseFee / 10))

/-- A transaction receipt as consumed by `approve_token` (base.py:140-152). -/
structure Receipt where
  status : Nat
  transactionHash : Nat
  gasUsed : Nat
  blockNumber : Nat
deriving DecidableEq

/-- The `.hex()` rendering of a hash value. -/
def hexStr (n : Nat) : String := String.mk (Nat.toDigits 16 n)

/-- The result dict of `approve_token`; dict keys that a given return path
does not set are `none`. -/
structure ApproveResult where
  success : Bool
  transactionHash : Option String := none
  gas_used : Option Nat := none
  blockNumber : Option Nat := none
  error : Option String := none
  receipt : Option Receipt := none
deriving DecidableEq

/-- The receipt classification at the end of `approve_token`
(base.py:140-152): `status == 1` yields the success dict with
`transactionHash`/`gas_used`/`blockNumber`, anything else yields the failure
dict with `error = 'Transaction failed'` and the receipt attached. -/
def classify_receipt (r : Receipt) : ApproveResult :=
  if r.status = 1 then
    { success := true
      transactionHash := some (hexStr r.transactionHash)
      gas_used := some r.gasUsed
      blockNumber := some r.blockNumber }
  else
    { success := false
      error := some "Transaction failed"
      receipt := some r }

/-- The chain interactions of one `approve_token` call: the allowance read,
the nonce obtained from `get_nonce`, the outcome of build/sign/send
(`Except.ok` with the tx hash, or the readable message of an exception
raised before the transaction went out), and the outcome of
`wait_for_transaction_receipt` (receipt, or timeout/exception). -/
structure ApproveEnv where
  allowance : Nat
  nonce : Nat
  send_raw : Except String Nat
  wait_receipt : Except String Receipt

/-- Model of `approve_token` (base.py:94-155) for a fixed token and spender.
Returns the result dict together with the approve transaction that was
submitted on-chain (`none` when nothing was submitted: the
sufficient-allowance fast path at base.py:106-108, or an exception before
send; exceptions are routed through `_handle_error`, base.py:154-155). -/
def approve_token (env : ApproveEnv) (address : String) (amount : Nat) :
    ApproveResult × Option TxParams :=
  if env.allowance ≥ amount then
    ({ success := true }, none)
  else
    match env.send_raw with
    | Except.error e => ({ success := false, error := some e }, none)
    | Except.ok _tx_hash =>
      let tx := build_approve_tx address env.nonce
      match env.wait_receipt with
      | Except.ok receipt => (classify_receipt receipt, some tx)
      | Except.error e => ({ success := false, error := some e }, some tx)

/-- ERC-20 approve semantics of the external token contract (spec §6):
a successfully mined `approve(spender, amount)` sets the allowance for that
spender to `amount`; a call that submitted nothing, or whose transaction
reverted or was not confirmed, leaves the allowance unchanged. -/
def approve_effect (allowance amount : Nat) (res : ApproveResult)
    (sent : Option TxParams) : Nat :=
  if sent.isSome && res.success then amount else allowance

/-- One `approve_token` call followed by the chain's allowance update:
result dict, submitted transaction (if any), and the new allowance. -/
def approve_call (allowance nonce : Nat) (send_raw : Except String Nat)
    (wait_receipt : Except String Receipt) (address : String) (amount : Nat) :
    ApproveResult × Option TxParams × Nat :=
  let out := approve_token ⟨allowance, nonce, send_raw, wait_receipt⟩ address amount
  (out.1, out.2, approve_effect allowance amount out.1 out.2)

/-- Number of on-chain transactions a call submitted. -/
def txCount (sent : Option TxParams) : Nat := if sent.isSome then 1 else 0

/-- The chain-count oracle used to refute C3: latest nonce 5, pending 7. -/
def count_latest5_pending7 : Selector → Nat :=
  fun s => match s with
  | Selector.latest => 5
  | Selector.pending => 7

/-- C3, counterexample: against a chain whose latest transaction count is 5
and whose pending count is 7, `BaseDEX.__init__` sets `_next_nonce = 5`, the
'latest' value, not the 'pending' value 7 the claim prescribes. -/
theorem init_nonce_uses_latest_not_pending :
    init_next_nonce count_latest5_pending7 = 5 ∧
    count_latest5_pending7 Selector.pending = 7 ∧ (5 : Nat) ≠ 7 := by
  decide

/-- C3, amended: at construction time the allocator's in-process nonce
counter is initialized from the chain's 'latest' (not 'pending') transaction
count for the account's address, so it differs from the pending count
whenever the two disagree. -/
theorem init_nonce_from_latest (count : Selector → Nat)
    (h : count Selector.latest ≠ count Selector.pending) :
    init_next_nonce count = count Selector.latest ∧
    init_next_nonce count ≠ count Selector.pending :=
  ⟨rfl, h⟩

theorem init_nonce_from_latest_witness :
    init_next_nonce count_latest5_pending7 = count_latest5_pending7 Selector.latest ∧
    init_next_nonce count_latest5_pending7 ≠ count_latest5_pending7 Selector.pending :=
  init_nonce_from_latest count_latest5_pending7 (by decide)

/-- C2, counterexample: the transaction built by `approve_token` carries
`maxFeePerGas = 4 gwei = 4000000000` and `maxPriorityFeePerGas = 2 gwei`,
whereas the claimed policy evaluated at `baseFeePerGas = 1000` (minimum
priority fee 50) gives `maxFeePerGas = 2000` and
`maxPriorityFeePerGas = 100`; the built fields match neither. -/
theorem approve_fees_not_from_base_fee :
    (build_approve_tx "0xa" 0).maxFeePerGas = 4000000000 ∧
    (build_approve_tx "0xa" 0).maxPriorityFeePerGas = 2000000000 ∧
    (spec_fee_quote 1000 50).1 = 2000 ∧
    (spec_fee_quote 1000 50).2 = 100 ∧
    (build_approve_tx "0xa" 0).maxFeePerGas ≠ (spec_fee_quote 1000 50).1 ∧
    (build_approve_tx "0xa" 0).maxPriorityFeePerGas ≠ (spec_fee_quote 1000 50).2 := by
  decide

/-- C2, amended: every approve transaction built for submission is an
EIP-1559 (type 2) transaction carrying the fixed fees
`maxFeePerGas = 4 gwei` and `maxPriorityFeePerGas = 2 gwei`, for every
address and nonce and regardless of the current base fee (which is never
read). -/
theorem approve_fees_fixed (address : String) (nonce : Nat) :
    (build_approve_tx address nonce).txType = 2 ∧
    (build_approve_tx address nonce).maxFeePerGas = 4000000000 ∧
    (build_approve_tx address nonce).maxPriorityFeePerGas = 2000000000 :=
  ⟨rfl, rfl, rfl⟩

/-- C5: a receipt with `status = 1` yields a success result carrying the
transaction hash (hex), gas used and block number; a receipt with
`status = 0` yields a failure result with `error = "Transaction failed"`
carrying the receipt. -/
theorem receipt_status_classification (r : Receipt) :
    (r.status = 1 →
      classify_receipt r =
        { success := true
          transactionHash := some (hexStr r.transactionHash)
          gas_used := some r.gasUsed
          blockNumber := some r.blockNumber }) ∧
    (r.status = 0 →
      classify_receipt r =
        { success := false
          error := some "Transaction failed"
          receipt := some r }) := by
  constructor
  · intro h
    simp [classify_receipt, h]
  · intro h
    simp [classify_receipt, h]

theorem receipt_status_classification_witness :
    classify_receipt ⟨1, 42, 21000, 99⟩ =
      { success := true
        transactionHash := some (hexStr 42)
        gas_used := some 21000
        blockNumber := some 99 } ∧
    classify_receipt ⟨0, 42, 21000, 99⟩ =
      { success := false
        error := some "Transaction failed"
        receipt := some ⟨0, 42, 21000, 99⟩ } :=
  ⟨(receipt_status_classification ⟨1, 42, 21000, 99⟩).1 rfl,
   (receipt_status_classification ⟨0, 42, 21000, 99⟩).2 rfl⟩

/-- Python `str.lower()`: lower-case every character.  (Stated via
`List.map` over the characters so that it reduces structurally; `String.map`
in the library is defined by well-founded recursion on byte positions.) -/
def lower (s : String) : String := String.mk (s.data.map Char.toLower)

/-- Python's lexicographic string comparison by code point, on the
character lists.  (Stated as a Bool function so that it reduces; the
library's Decidable instance for String order does not.) -/
def charListLe : List Char → List Char → Bool
  | [], _ => true
  | _ :: _, [] => false
  | a :: as, b :: bs =>
    if a < b then true else if b < a then false else charListLe as bs

/-- TokenPairKey, `tuple(sorted([token_in.lower(), token_out.lower()]))` (base.py:49):
the identity used for pending-transaction tracking. -/
def token_pair_key (token_in token_out : String) : String × String :=
  let a := lower token_in
  let b := lower token_out
  if charListLe a.data b.data then (a, b) else (b, a)

/-- The map `self._pending_txs`: a dict from token pair to pending tx hash, as an
association list with one entry per key. -/
abbrev PendingMap := List ((String × String) × Nat)

/-- Dict lookup on the pending map. -/
def lookupPair : PendingMap → (String × String) → Option Nat
  | [], _ => none
  | e :: m, k => if e.1 = k then some e.2 else lookupPair m k

/-- Dict deletion `del self._pending_txs[token_pair]` (base.py:55): remove the entry for
the key. -/
def erasePair : PendingMap → (String × String) → PendingMap
  | [], _ => []
  | e :: m, k => if e.1 = k then m else e :: erasePair m k

/-- Model of `_wait_for_pending_txs` (base.py:40-55): if an entry exists for the
pair, wait for its transaction's receipt and then delete the entry
(`del self._pending_txs[token_pair]`); an exception from the wait (e.g.
the 60 s receipt timeout, or task cancellation) propagates out of the
function before the deletion line runs, leaving the map unchanged.  The
logging-only nonce reads at base.py:43-47 do not affect the map. -/
def wait_for_pending_txs (m : PendingMap) (token_in token_out : String)
    (wait_for_transaction_receipt : Nat → Except String Receipt) :
    Except String Unit × PendingMap :=
  let key := token_pair_key token_in token_out
  match lookupPair m key with
  | none => (Except.ok (), m)
  | some tx_hash =>
    match wait_for_transaction_receipt tx_hash with
    | Except.ok _receipt => (Except.ok (), erasePair m key)
    | Except.error e => (Except.error e, m)

theorem lookupPair_eq_none_of_not_mem (m : PendingMap) (k : String × String)
    (h : k ∉ m.map Prod.fst) : lookupPair m k = none := by
  induction m with
  | nil => rfl
  | cons e m ih =>
    simp only [List.map_cons, List.mem_cons, not_or] at h
    have he : ¬ e.1 = k := fun hk => h.1 hk.symm
    rw [lookupPair, if_neg he]
    exact ih h.2

theorem lookupPair_erasePair_of_nodup (m : PendingMap) (k : String × String)
    (h : (m.map Prod.fst).Nodup) :
    lookupPair (erasePair m k) k = none := by
  induction m with
  | nil => rfl
  | cons e m ih =>
    simp only [List.map_cons, List.nodup_cons] at h
    by_cases he : e.1 = k
    · rw [erasePair, if_pos he]
      exact lookupPair_eq_none_of_not_mem m k (he ▸ h.1)
    · rw [erasePair, if_neg he, lookupPair, if_neg he]
      exact ih h.2

/-- C4, counterexample: with a pending entry registered for the pair
("0xa","0xb") and a receipt wait that fails (the 60 s timeout), the wait
operation exits on the failure path and the entry is still in the map:
the entry is not removed on every exit path. -/
theorem pending_entry_kept_on_failed_wait :
    (wait_for_pending_txs [(token_pair_key "0xa" "0xb", 42)] "0xa" "0xb"
        (fun _ => Except.error "timeout")).1 = Except.error "timeout" ∧
    lookupPair
      (wait_for_pending_txs [(token_pair_key "0xa" "0xb", 42)] "0xa" "0xb"
        (fun _ => Except.error "timeout")).2
      (token_pair_key "0xa" "0xb") = some 42 :=
  ⟨rfl, rfl⟩

/-- C4, amended: in `_wait_for_pending_txs` the pending entry keyed by the
pair's TokenPairKey is removed only on the success exit path (receipt
obtained within the timeout); when the receipt wait fails the exception
propagates and the map — including the stale entry — is left unchanged, so
a later operation on the pair can still be blocked by it. -/
theorem pending_entry_removed_on_success (m : PendingMap)
    (token_in token_out : String)
    (wait : Nat → Except String Receipt)
    (hnodup : (m.map Prod.fst).Nodup) :
    ((wait_for_pending_txs m token_in token_out wait).1 = Except.ok () →
      lookupPair (wait_for_pending_txs m token_in token_out wait).2
        (token_pair_key token_in token_out) = none) ∧
    (∀ e, (wait_for_pending_txs m token_in token_out wait).1 = Except.error e →
      (wait_for_pending_txs m token_in token_out wait).2 = m) := by
  rcases hl : lookupPair m (token_pair_key token_in token_out) with _ | tx
  · constructor
    · intro _
      simp only [wait_for_pending_txs, hl]
    · intro e he
      simp only [wait_for_pending_txs, hl]
  · rcases hw : wait tx with e | r
    · constructor
      · intro h
        simp only [wait_for_pending_txs, hl, hw] at h
        exact Except.noConfusion h
      · intro e' he'
        simp only [wait_for_pending_txs, hl, hw]
    · constructor
      · intro _
        simp only [wait_for_pending_txs, hl, hw]
        exact lookupPair_erasePair_of_nodup m _ hnodup
      · intro e' he'
        simp only [wait_for_pending_txs, hl, hw] at he'
        exact Except.noConfusion he'

theorem pending_entry_removed_on_success_witness :
    lookupPair
      (wait_for_pending_txs [(token_pair_key "0xa" "0xb", 42)] "0xa" "0xb"
        (fun _ => Except.ok ⟨1, 42, 21000, 99⟩)).2
      (token_pair_key "0xa" "0xb") = none :=
  (pending_entry_removed_on_success [(token_pair_key "0xa" "0xb", 42)]
      "0xa" "0xb" (fun _ => Except.ok ⟨1, 42, 21000, 99⟩) (by decide)).1 rfl

/-- C10: when `approve_token` takes the sufficient-allowance fast path
(base.py:106-108) it returns the bare dict `{'success': True}`: no
`transactionHash`, `gas_used` or `blockNumber` key, and no transaction is
submitted; whereas the on-chain path's success result (base.py:140-146)
carries all three. -/
theorem fast_path_result_minimal (env : ApproveEnv) (address : String)
    (amount : Nat) (hfast : env.allowance ≥ amount) :
    (approve_token env address amount).1.success = true ∧
    (approve_token env address amount).1.transactionHash = none ∧
    (approve_token env address amount).1.gas_used = none ∧
    (approve_token env address amount).1.blockNumber = none ∧
    (approve_token env address amount).2 = none ∧
    (∀ (env2 : ApproveEnv) (a2 h2 : Nat) (r : Receipt),
      ¬ env2.allowance ≥ a2 → env2.send_raw = Except.ok h2 →
      env2.wait_receipt = Except.ok r → r.status = 1 →
      (approve_token env2 address a2).1.transactionHash =
          some (hexStr r.transactionHash) ∧
        (approve_token env2 address a2).1.gas_used = some r.gasUsed ∧
        (approve_token env2 address a2).1.blockNumber = some r.blockNumber) := by
  refine ⟨?_, ?_, ?_, ?_, ?_, ?_⟩
  · simp [approve_token, hfast]
  · simp [approve_token, hfast]
  · simp [approve_token, hfast]
  · simp [approve_token, hfast]
  · simp [approve_token, hfast]
  · intro env2 a2 h2 r hslow hsend hwait hst
    simp [approve_token, hslow, hsend, hwait, classify_receipt, hst]

theorem fast_path_result_minimal_witness :
    (approve_token ⟨10, 0, Except.error "unused", Except.error "unused"⟩ "0xa" 3).1.success
        = true ∧
    (approve_token ⟨10, 0, Except.error "unused", Except.error "unused"⟩ "0xa" 3).1.transactionHash
        = none ∧
    (approve_token ⟨10, 0, Except.error "unused", Except.error "unused"⟩ "0xa" 3).1.gas_used
        = none ∧
    (approve_token ⟨10, 0, Except.error "unused", Except.error "unused"⟩ "0xa" 3).1.blockNumber
        = none ∧
    (approve_token ⟨10, 0, Except.error "unused", Except.error "unused"⟩ "0xa" 3).2
        = none :=
  have h := fast_path_result_minimal
    ⟨10, 0, Except.error "unused", Except.error "unused"⟩ "0xa" 3 (by decide)
  ⟨h.1, h.2.1, h.2.2.1, h.2.2.2.1, h.2.2.2.2.1⟩

/-- First call of the C6 counterexample run: allowance 10, request 5. -/
def cl6_first : ApproveResult × Option TxParams × Nat :=
  approve_call 10 0 (Except.error "rpc") (Except.error "rpc") "0xa" 5

/-- Second call of the C6 counterexample run: same request again. -/
def cl6_second : ApproveResult × Option TxParams × Nat :=
  approve_call cl6_first.2.2 1 (Except.error "rpc") (Except.error "rpc") "0xa" 5

/-- C6, counterexample: starting from an on-chain allowance of 10, two
successive `approve_token` calls for amount 5 (non-increasing, the first
succeeds) both take the fast path and produce zero on-chain approval
transactions, not exactly one as the claim states. -/
theorem approve_twice_zero_tx_example :
    cl6_first.1.success = true ∧ cl6_second.1.success = true ∧ (5 : Nat) ≤ 5 ∧
    txCount cl6_first.2.1 + txCount cl6_second.2.1 = 0 ∧ (0 : Nat) ≠ 1 := by
  decide

/-- C6, amended: whenever the current allowance covers the requested
amount, `approve_token` returns the bare success dict and submits nothing;
consequently two successive calls with a non-increasing amount after a
successful first call submit at most one on-chain approval transaction —
exactly one when the initial allowance was below the first amount, and
zero when it already sufficed. -/
theorem approve_allowance_idempotent (allowance n1 n2 : Nat)
    (s1 s2 : Except String Nat) (w1 w2 : Except String Receipt)
    (address : String) (a1 a2 : Nat) (hle : a2 ≤ a1)
    (h1 : (approve_call allowance n1 s1 w1 address a1).1.success = true) :
    (allowance ≥ a1 →
      (approve_call allowance n1 s1 w1 address a1).1 = { success := true } ∧
      (approve_call allowance n1 s1 w1 address a1).2.1 = none) ∧
    (approve_call (approve_call allowance n1 s1 w1 address a1).2.2
        n2 s2 w2 address a2).1.success = true ∧
    (approve_call (approve_call allowance n1 s1 w1 address a1).2.2
        n2 s2 w2 address a2).2.1 = none ∧
    txCount (approve_call allowance n1 s1 w1 address a1).2.1 +
        txCount (approve_call (approve_call allowance n1 s1 w1 address a1).2.2
          n2 s2 w2 address a2).2.1
      = (if allowance ≥ a1 then 0 else 1) := by
  by_cases hfa : allowance ≥ a1
  · have hfa2 : allowance ≥ a2 := le_trans hle hfa
    refine ⟨fun _ => ?_, ?_, ?_, ?_⟩ <;>
      simp [approve_call, approve_token, approve_effect, txCount, hfa, hfa2]
  · rcases s1 with e | tx1
    · simp [approve_call, approve_token, hfa] at h1
    · rcases w1 with e | r
      · simp [approve_call, approve_token, hfa] at h1
      · by_cases hst : r.status = 1
        · have halw :
              (approve_call allowance n1 (Except.ok tx1) (Except.ok r) address a1).2.2 = a1 := by
            simp [approve_call, approve_token, approve_effect, hfa, classify_receipt, hst]
          refine ⟨fun h => absurd h hfa, ?_, ?_, ?_⟩ <;>
            rw [halw] <;>
            simp [approve_call, approve_token, approve_effect, txCount, hfa,
              classify_receipt, hst, hle]
        · simp [approve_call, approve_token, hfa, classify_receipt, hst] at h1

theorem approve_allowance_idempotent_witness :
    (approve_call
        (approve_call 0 7 (Except.ok 55) (Except.ok ⟨1, 42, 21000, 99⟩) "0xa" 5).2.2
        8 (Except.ok 56) (Except.ok ⟨1, 43, 21000, 100⟩) "0xa" 3).1.success = true ∧
    (approve_call
        (approve_call 0 7 (Except.ok 55) (Except.ok ⟨1, 42, 21000, 99⟩) "0xa" 5).2.2
        8 (Except.ok 56) (Except.ok ⟨1, 43, 21000, 100⟩) "0xa" 3).2.1 = none ∧
    txCount (approve_call 0 7 (Except.ok 55) (Except.ok ⟨1, 42, 21000, 99⟩) "0xa" 5).2.1 +
        txCount (approve_call
          (approve_call 0 7 (Except.ok 55) (Except.ok ⟨1, 42, 21000, 99⟩) "0xa" 5).2.2
          8 (Except.ok 56) (Except.ok ⟨1, 43, 21000, 100⟩) "0xa" 3).2.1
      = (if 0 ≥ 5 then 0 else 1) :=
  have h := approve_allowance_idempotent 0 7 8 (Except.ok 55) (Except.ok 56)
    (Except.ok ⟨1, 42, 21000, 99⟩) (Except.ok ⟨1, 43, 21000, 100⟩) "0xa" 5 3
    (by decide) (by decide)
  ⟨h.2.1, h.2.2.1, h.2.2.2⟩

/-- Actions of `test_swap_with_slippage_check` after the quote is obtained
(tests/test_aerodrome.py:136-147), in program order. -/
inductive Action where
  | warn
  | approve
  | swap
deriving DecidableEq

/-- Model of `calculate_price_difference` (tests/test_aerodrome.py:84-86):
percentage difference between two prices. -/
def calculate_price_difference (price1 price2 : ℚ) : ℚ :=
  |price1 - price2| / price2 * 100

/-- The slippage check and subsequent actions of
`test_swap_with_slippage_check` (tests/test_aerodrome.py:136-147): when the
price difference exceeds `max_slippage` only a warning is logged, and the
approval and the swap are executed unconditionally afterwards. -/
def swap_with_slippage_check (effective_price btc_price max_slippage : ℚ) :
    List Action :=
  let price_diff := calculate_price_difference effective_price btc_price
  (if price_diff > max_slippage then [Action.warn] else []) ++
    [Action.approve, Action.swap]

/-- C7: the swap is executed for every price difference — the slippage
check never aborts the flow — and the warning is logged exactly when the
difference exceeds `max_slippage`. -/
theorem slippage_check_warn_only (effective_price btc_price max_slippage : ℚ) :
    Action.swap ∈ swap_with_slippage_check effective_price btc_price max_slippage ∧
    Action.approve ∈ swap_with_slippage_check effective_price btc_price max_slippage ∧
    (calculate_price_difference effective_price btc_price > max_slippage →
      Action.warn ∈ swap_with_slippage_check effective_price btc_price max_slippage) ∧
    (¬ calculate_price_difference effective_price btc_price > max_slippage →
      Action.warn ∉ swap_with_slippage_check effective_price btc_price max_slippage) := by
  by_cases h : calculate_price_difference effective_price btc_price > max_slippage <;>
    simp [swap_with_slippage_check, h]

theorem slippage_check_warn_only_witness :
    Action.swap ∈ swap_with_slippage_check 110 100 1 ∧
    Action.warn ∈ swap_with_slippage_check 110 100 1 :=
  have hgt : calculate_price_difference 110 100 > 1 := by
    rw [calculate_price_difference]
    rw [abs_of_pos (by norm_num : (0 : ℚ) < 110 - 100)]
    norm_num
  ⟨(slippage_check_warn_only 110 100 1).1,
   (slippage_check_warn_only 110 100 1).2.2.1 hgt⟩

/-- One call of `get_nonce` (base.py:61-92) unrolled over its retry loop,
with the chain reads supplied per iteration: `claimR i` is the pending
count read inside the locked section of iteration `i` (base.py:72; an
exception there is not caught by the loop and would abort the call, so it
is not modelled), and `checkR i` is the post-claim pending read
(base.py:81) whose exception is caught and causes a retry (base.py:85-92).
`fuel` bounds how many iterations are unrolled — the code itself has no
such bound, so `none` means the call has not returned within `fuel`
iterations.  A returned value carries the returned nonce, the final
`_next_nonce` counter, and the values claimed by the locked section
(base.py:74-76), in claim order. -/
def getNonceLoop (claimR : Nat → Nat) (checkR : Nat → Except String Nat) :
    Nat → Nat → Nat → Option (Nat × Nat × List Nat)
  | _counter, _i, 0 => none
  | counter, i, fuel + 1 =>
    let next_nonce := max counter (claimR i)
    let counter' := next_nonce + 1
    match checkR i with
    | Except.ok chain_nonce =>
      if chain_nonce ≤ next_nonce then some (next_nonce, counter', [next_nonce])
      else
        match getNonceLoop claimR checkR counter' (i + 1) fuel with
        | some (v, f, cs) => some (v, f, next_nonce :: cs)
        | none => none
    | Except.error _ =>
      match getNonceLoop claimR checkR counter' (i + 1) fuel with
      | some (v, f, cs) => some (v, f, next_nonce :: cs)
      | none => none

/-- The chain pending reads of the C8 run: the claim read sees 5, then 7. -/
def cl8_claimR : Nat → Nat := fun j => if j = 0 then 5 else 7

/-- The chain pending reads of the C8 run: every check read sees 7. -/
def cl8_checkR : Nat → Except String Nat := fun _ => Except.ok 7

/-- C8, counterexample: starting from `_next_nonce = 5`, with the chain's
pending nonce read as 7 at every check, the call retries once (claiming 5,
then 7), returns 7, and leaves `_next_nonce = 8 = returned + 1` — not
`returned + (k + 1) = 9` as the claim states for `k = 1` retries. -/
theorem retry_counter_gap_example :
    getNonceLoop cl8_claimR cl8_checkR 5 0 10 = some (7, 8, [5, 7]) ∧
    (8 : Nat) ≠ 7 + 2 := by
  decide

/-- C8, amended: every retry iteration claims a value that is never
returned; when a `get_nonce` call returns `v`, the internal counter equals
`v + 1` (it exceeds the returned nonce by exactly 1, independent of the
number of retries), the claimed values are strictly increasing and end
with `v`, so each of the `k` retried claims is a value strictly below `v`
that was claimed but never handed out. -/
theorem get_nonce_counter_after_return (claimR : Nat → Nat)
    (checkR : Nat → Except String Nat) (counter i fuel v f : Nat) (cs : List Nat)
    (h : getNonceLoop claimR checkR counter i fuel = some (v, f, cs)) :
    f = v + 1 ∧ (∃ pre, cs = pre ++ [v]) ∧ cs.Pairwise (· < ·) ∧
      ∀ x ∈ cs, counter ≤ x := by
  induction fuel generalizing counter i v f cs with
  | zero => exact Option.noConfusion h
  | succ fuel ih =>
    simp only [getNonceLoop] at h
    split at h
    · split at h
      · simp only [Option.some.injEq, Prod.mk.injEq] at h
        obtain ⟨rfl, rfl, rfl⟩ := h
        refine ⟨rfl, ⟨[], rfl⟩, by simp, ?_⟩
        intro x hx
        simp only [List.mem_singleton] at hx
        subst hx
        exact le_max_left _ _
      · split at h
        · simp only [Option.some.injEq, Prod.mk.injEq] at h
          obtain ⟨rfl, rfl, rfl⟩ := h
          rename_i v' f' cs' hr
          obtain ⟨h1, ⟨pre, hpre⟩, h3, h4⟩ := ih _ _ _ _ _ hr
          refine ⟨h1, ⟨max counter (claimR i) :: pre, by rw [hpre]; rfl⟩, ?_, ?_⟩
          · rw [List.pairwise_cons]
            exact ⟨fun x hx => Nat.lt_of_succ_le (h4 x hx), h3⟩
          · intro x hx
            rcases List.mem_cons.mp hx with rfl | hx'
            · exact le_max_left _ _
            · exact le_trans (le_max_left _ _) (Nat.le_of_succ_le (h4 x hx'))
        · exact Option.noConfusion h
    · split at h
      · simp only [Option.some.injEq, Prod.mk.injEq] at h
        obtain ⟨rfl, rfl, rfl⟩ := h
        rename_i v' f' cs' hr
        obtain ⟨h1, ⟨pre, hpre⟩, h3, h4⟩ := ih _ _ _ _ _ hr
        refine ⟨h1, ⟨max counter (claimR i) :: pre, by rw [hpre]; rfl⟩, ?_, ?_⟩
        · rw [List.pairwise_cons]
          exact ⟨fun x hx => Nat.lt_of_succ_le (h4 x hx), h3⟩
        · intro x hx
          rcases List.mem_cons.mp hx with rfl | hx'
          · exact le_max_left _ _
          · exact le_trans (le_max_left _ _) (Nat.le_of_succ_le (h4 x hx'))
      · exact Option.noConfusion h

theorem get_nonce_counter_after_return_witness :
    (8 : Nat) = 7 + 1 ∧ ([5, 7] : List Nat).Pairwise (· < ·) :=
  have h := get_nonce_counter_after_return cl8_claimR cl8_checkR 5 0 10 7 8 [5, 7]
    (by decide)
  ⟨h.1, h.2.2.1⟩

/-- C9: the retry loop of `get_nonce` has no bound — against a chain
oracle whose post-claim pending reads always raise, or one whose pending
nonce races ahead of every claim (reads from any strictly increasing
sequence starting at or above the counter), the call does not return
within any number of iterations. -/
theorem get_nonce_unbounded_retry :
    (∀ (claimR : Nat → Nat) (counter i fuel : Nat),
      getNonceLoop claimR (fun _ => Except.error "rpc error") counter i fuel = none) ∧
    (∀ r : Nat → Nat, StrictMono r →
      ∀ counter i fuel, counter ≤ r (2 * i) →
        getNonceLoop (fun j => r (2 * j)) (fun j => Except.ok (r (2 * j + 1)))
          counter i fuel = none) := by
  constructor
  · intro claimR counter i fuel
    induction fuel generalizing counter i with
    | zero => rfl
    | succ fuel ih =>
      simp only [getNonceLoop]
      rw [ih]
  · intro r hr counter i fuel
    induction fuel generalizing counter i with
    | zero => intro _; rfl
    | succ fuel ih =>
      intro hci
      simp only [getNonceLoop]
      rw [max_eq_right hci]
      have hlt : ¬ r (2 * i + 1) ≤ r (2 * i) := by
        have := hr (by omega : 2 * i < 2 * i + 1)
        omega
      rw [if_neg hlt]
      have hnext : r (2 * i) + 1 ≤ r (2 * (i + 1)) := by
        have := hr (by omega : 2 * i < 2 * (i + 1))
        omega
      rw [ih (r (2 * i) + 1) (i + 1) hnext]

theorem get_nonce_unbounded_retry_witness :
    getNonceLoop (fun _ => 0) (fun _ => Except.error "rpc error") 0 0 5 = none ∧
    getNonceLoop (fun j => 2 * j) (fun j => Except.ok (2 * j + 1)) 0 0 5 = none :=
  ⟨get_nonce_unbounded_retry.1 (fun _ => 0) 0 0 5,
   get_nonce_unbounded_retry.2 (fun j => j) strictMono_id 0 0 5 (Nat.zero_le _)⟩

/-- State of one logical task inside `get_nonce` (base.py:61-92): before
entering the locked claim section, holding a claimed nonce before the
post-claim check, or returned with its nonce. -/
inductive TState where
  | ready
  | claimed (v : Nat)
  | done (v : Nat)
deriving DecidableEq

/-- Shared state of N concurrent `get_nonce` calls: the account's
`_next_nonce` counter, each task's state, and the history of values
claimed by the locked section, in claim order. -/
structure NSys where
  next : Nat
  threads : List TState
  hist : List Nat
deriving DecidableEq

/-- The multiset of nonce values currently held (claimed or returned) by
the tasks. -/
def valsOf : List TState → Multiset Nat
  | [] => 0
  | TState.ready :: ts => valsOf ts
  | TState.claimed v :: ts => v ::ₘ valsOf ts
  | TState.done v :: ts => v ::ₘ valsOf ts

/-- Interleaving semantics of concurrent `get_nonce` calls against a
simulated chain nonce source whose pending-count reads return the constant
`c` and never raise (the "simulated chain nonce source" of the spec's
testable property).  `claim` is the section under `nonce_lock`
(base.py:70-76), atomic because the lock serializes it: read the chain's
pending count, take the max with `_next_nonce`, claim it, and bump the
counter.  `check_ok` and `check_retry` are the unlocked post-claim
comparison (base.py:81-84) and the retry path (base.py:92). -/
inductive NStep (c : Nat) : NSys → NSys → Prop
  | claim (s : NSys) (i : Nat) (h : s.threads.get? i = some TState.ready) :
      NStep c s
        ⟨max s.next c + 1, s.threads.set i (TState.claimed (max s.next c)),
          s.hist ++ [max s.next c]⟩
  | check_ok (s : NSys) (i v : Nat)
      (h : s.threads.get? i = some (TState.claimed v)) (hc : c ≤ v) :
      NStep c s ⟨s.next, s.threads.set i (TState.done v), s.hist⟩
  | check_retry (s : NSys) (i v : Nat)
      (h : s.threads.get? i = some (TState.claimed v)) (hc : v < c) :
      NStep c s ⟨s.next, s.threads.set i TState.ready, s.hist⟩

/-- Reflexive-transitive closure of `NStep`: every interleaved schedule. -/
inductive NReach (c : Nat) : NSys → NSys → Prop
  | refl (s : NSys) : NReach c s s
  | step (s t u : NSys) : NStep c s t → NReach c t u → NReach c s u

/-- Initial state: `_next_nonce = n0` (set in `__init__`, base.py:28) and
N tasks about to call `get_nonce`. -/
def initSys (n0 N : Nat) : NSys := ⟨n0, List.replicate N TState.ready, []⟩

theorem valsOf_replicate_ready (n : Nat) :
    valsOf (List.replicate n TState.ready) = 0 := by
  induction n with
  | zero => rfl
  | succ k ih => simp [List.replicate, valsOf, ih]

theorem valsOf_set_claimed (ts : List TState) (i v : Nat)
    (h : ts.get? i = some TState.ready) :
    valsOf (ts.set i (TState.claimed v)) = v ::ₘ valsOf ts := by
  induction ts generalizing i with
  | nil => exact Option.noConfusion h
  | cons t ts ih =>
    cases i with
    | zero =>
      simp only [List.get?] at h
      obtain rfl := Option.some.inj h
      simp [List.set, valsOf]
    | succ j =>
      simp only [List.get?] at h
      cases t with
      | ready => simp [List.set, valsOf, ih j h]
      | claimed w => simp [List.set, valsOf, ih j h, Multiset.cons_swap]
      | done w => simp [List.set, valsOf, ih j h, Multiset.cons_swap]

theorem valsOf_set_done (ts : List TState) (i v : Nat)
    (h : ts.get? i = some (TState.claimed v)) :
    valsOf (ts.set i (TState.done v)) = valsOf ts := by
  induction ts generalizing i with
  | nil => exact Option.noConfusion h
  | cons t ts ih =>
    cases i with
    | zero =>
      simp only [List.get?] at h
      obtain rfl := Option.some.inj h
      simp [List.set, valsOf]
    | succ j =>
      simp only [List.get?] at h
      cases t with
      | ready => simp [List.set, valsOf, ih j h]
      | claimed w => simp [List.set, valsOf, ih j h]
      | done w => simp [List.set, valsOf, ih j h]

theorem mem_valsOf_of_claimed (ts : List TState) (i v : Nat)
    (h : ts.get? i = some (TState.claimed v)) : v ∈ valsOf ts := by
  induction ts generalizing i with
  | nil => exact Option.noConfusion h
  | cons t ts ih =>
    cases i with
    | zero =>
      simp only [List.get?] at h
      obtain rfl := Option.some.inj h
      simp [valsOf]
    | succ j =>
      simp only [List.get?] at h
      cases t with
      | ready => simpa [valsOf] using ih j h
      | claimed w => simp [valsOf, Multiset.mem_cons, ih j h]
      | done w => simp [valsOf, Multiset.mem_cons, ih j h]

theorem valsOf_card_of_done (ts : List TState)
    (h : ∀ t ∈ ts, ∃ v, t = TState.done v) :
    Multiset.card (valsOf ts) = ts.length := by
  induction ts with
  | nil => rfl
  | cons t ts ih =>
    obtain ⟨v, rfl⟩ := h t (by simp)
    simp [valsOf, ih (fun u hu => h u (by simp [hu]))]

/-- The reachability invariant: the claim history is exactly the
contiguous block of length `k` starting at `max n0 c`, the values held by
the tasks are exactly the history, and the counter sits one past the last
claim (or at `n0` before the first claim). -/
def NInv (n0 c N : Nat) (s : NSys) : Prop :=
  s.threads.length = N ∧
  s.hist = List.range' (max n0 c) s.hist.length ∧
  valsOf s.threads = (s.hist : Multiset Nat) ∧
  s.next = if s.hist.length = 0 then n0 else max n0 c + s.hist.length

theorem NInv_init (n0 c N : Nat) : NInv n0 c N (initSys n0 N) := by
  refine ⟨by simp [initSys], by simp [initSys], ?_, by simp [initSys]⟩
  simp [initSys, valsOf_replicate_ready]

theorem NInv_step (n0 c N : Nat) (s t : NSys) (hinv : NInv n0 c N s)
    (hst : NStep c s t) : NInv n0 c N t := by
  obtain ⟨hlen, hhist, hvals, hnext⟩ := hinv
  cases hst with
  | claim i h =>
    by_cases hk : s.hist.length = 0
    · have he : s.hist = [] := List.length_eq_zero.mp hk
      have hn : s.next = n0 := by rw [hnext, if_pos hk]
      refine ⟨by simpa using hlen, ?_, ?_, ?_⟩
      · simp [he, hn, List.range'_one]
      · rw [valsOf_set_claimed s.threads i _ h, hvals, he]
        simp [hn]
      · simp [he, hn]
    · have hn : s.next = max n0 c + s.hist.length := by rw [hnext, if_neg hk]
      have hcle : c ≤ max n0 c + s.hist.length :=
        le_trans (le_max_right n0 c) (Nat.le_add_right _ _)
      have hmax : max s.next c = max n0 c + s.hist.length := by
        rw [hn]
        exact max_eq_left hcle
      refine ⟨by simpa using hlen, ?_, ?_, ?_⟩
      · simp only [hmax]
        rw [hhist]
        simp only [List.length_append, List.length_range', List.length_singleton]
        rw [← List.range'_1_concat]
      · rw [valsOf_set_claimed s.threads i _ h, hvals, hmax]
        rw [Multiset.cons_coe]
        exact Multiset.coe_eq_coe.mpr (List.perm_append_singleton _ _).symm
      · simp only [hmax, List.length_append, List.length_singleton]
        rw [if_neg (by omega)]
        omega
  | check_ok i v h hc =>
    refine ⟨by simpa using hlen, hhist, ?_, hnext⟩
    rw [valsOf_set_done s.threads i v h, hvals]
  | check_retry i v h hc =>
    exfalso
    have hv : v ∈ valsOf s.threads := mem_valsOf_of_claimed s.threads i v h
    rw [hvals] at hv
    have hv' : v ∈ s.hist := by exact_mod_cast hv
    rw [hhist] at hv'
    have := (List.mem_range'_1.mp hv').1
    have hcm : c ≤ max n0 c := le_max_right n0 c
    omega

theorem NInv_reach (n0 c N : Nat) (s t : NSys) (h : NReach c s t)
    (hs : NInv n0 c N s) : NInv n0 c N t := by
  induction h with
  | refl s => exact hs
  | step s u t hstep _hr ih => exact ih (NInv_step n0 c N s u hs hstep)

/-- C1: for N concurrent `get_nonce` calls against a simulated chain nonce
source (constant pending count `c`, no failures), in every interleaving in
which all N calls have returned, the returned nonces are exactly the N
distinct contiguous values `max n0 c, …, max n0 c + N - 1`; no two callers
received the same value, and the values were claimed in strictly
increasing order, so nonces are monotonically non-decreasing across the
account's lifetime. -/
theorem get_nonce_concurrent_allocation (n0 c N : Nat) (s : NSys)
    (hreach : NReach c (initSys n0 N) s)
    (hdone : ∀ t ∈ s.threads, ∃ v, t = TState.done v) :
    valsOf s.threads = (List.range' (max n0 c) N : List Nat) ∧
    s.hist = List.range' (max n0 c) N ∧
    Multiset.card (valsOf s.threads) = N ∧
    s.hist.Nodup ∧
    s.hist.Pairwise (· < ·) := by
  obtain ⟨hlen, hhist, hvals, _hnext⟩ :=
    NInv_reach n0 c N _ s hreach (NInv_init n0 c N)
  have hcard : Multiset.card (valsOf s.threads) = s.threads.length :=
    valsOf_card_of_done s.threads hdone
  have hk : s.hist.length = N := by
    rw [hvals, Multiset.coe_card, hlen] at hcard
    exact hcard
  have hrange : s.hist = List.range' (max n0 c) N := by
    rw [← hk]
    exact hhist
  refine ⟨by rw [hvals, hrange], hrange, by rw [hcard, hlen], ?_, ?_⟩
  · rw [hrange]
    exact List.nodup_range' _ _
  · rw [hrange]
    exact List.pairwise_lt_range' _ _

theorem get_nonce_concurrent_allocation_witness :
    valsOf [TState.done 0, TState.done 1] = (List.range' 0 2 : List Nat) ∧
    ([0, 1] : List Nat) = List.range' 0 2 ∧
    Multiset.card (valsOf [TState.done 0, TState.done 1]) = 2 ∧
    ([0, 1] : List Nat).Nodup ∧
    ([0, 1] : List Nat).Pairwise (· < ·) := by
  have hreach : NReach 0 (initSys 0 2) ⟨2, [TState.done 0, TState.done 1], [0, 1]⟩ := by
    refine NReach.step _ ⟨1, [TState.claimed 0, TState.ready], [0]⟩ _
      (NStep.claim (initSys 0 2) 0 rfl) ?_
    refine NReach.step _ ⟨1, [TState.done 0, TState.ready], [0]⟩ _
      (NStep.check_ok _ 0 0 rfl (Nat.le_refl 0)) ?_
    refine NReach.step _ ⟨2, [TState.done 0, TState.claimed 1], [0, 1]⟩ _
      (NStep.claim _ 1 rfl) ?_
    refine NReach.step _ ⟨2, [TState.done 0, TState.done 1], [0, 1]⟩ _
      (NStep.check_ok _ 1 1 rfl (by decide)) ?_
    exact NReach.refl _
  have hdone : ∀ t ∈ ([TState.done 0, TState.done 1] : List TState),
      ∃ v, t = TState.done v := by
    intro t ht
    rcases List.mem_cons.mp ht with rfl | ht'
    · exact ⟨0, rfl⟩
    · rcases List.mem_cons.mp ht' with rfl | ht''
      · exact ⟨1, rfl⟩
      · exact absurd ht'' (List.not_mem_nil t)
  exact get_nonce_concurrent_allocation 0 0 2
    ⟨2, [TState.done 0, TState.done 1], [0, 1]⟩ hreach hdone

end Dex
